import Mathlib

/-!
Verification of the desktop_audio_capture audio engine.

This file gives a shallow embedding of the engine's per-platform capture
logic and proves or refutes the specified properties against it.

Sources embedded here:
* `src/windows/mic_capture_plugin.cpp` — `MicCapturePlugin` (current variant,
  lines 1-1005, and the older variant after the first document separator).
* `src/unnamed/part_002` — `SystemAudioCapturePlugin` (single-buffer variant).
* `src/windows/audio_capture_plugin.h` — `SystemAudioCapturePlugin`
  (double-buffer variant with the 20..50 ms chunk clamp).
* `src/macos/Classes/MicCapturePlugin.swift` — the macOS microphone path
  (`processAudioBuffer`, `extractPCMData`, `calculateDecibelFromFloatBuffer`).

Machine integers are modelled as `Int`/`Nat`; C `float`/`double` arithmetic is
modelled exactly over `ℚ`/`ℝ` (every concrete value used in the statements is
exactly representable, and every property proved is insensitive to rounding of
the intermediate products).
-/

namespace DesktopAudioCapture

/-- Truncation toward zero of a rational number, the effect of C++
`static_cast<int16_t>` / Swift `Int16(_:)` applied to an in-range float. -/
def ratTrunc (q : ℚ) : ℤ := if 0 ≤ q then q.floor else -((-q).floor)

/-- Clamp-then-truncate used by every gain/downmix stage:
`sample = max(min_value, min(max_value, x))` with `max_value = 32767.0`,
`min_value = -32768.0`, then the store into `int16_t`.
From `mic_capture_plugin.cpp:222-231` (and identically in `part_002:175-183`). -/
def clampToInt16 (q : ℚ) : ℤ := ratTrunc (max (-32768) (min 32767 q))

/-- Stereo branch of `ApplyGainBoostAndConvertToMono`
(`mic_capture_plugin.cpp:233-243`): average each L/R pair, multiply by the
gain, clamp, store. The loop runs over `frame_count = total_samples / 2`
frames, i.e. over consecutive disjoint pairs. -/
def downmixPairs (gain : ℚ) : List ℤ → List ℤ
  | l :: r :: rest => clampToInt16 (((l : ℚ) + (r : ℚ)) / 2 * gain) :: downmixPairs gain rest
  | _ => []

/-- `MicCapturePlugin::ApplyGainBoostAndConvertToMono`
(`mic_capture_plugin.cpp:219-244`; the system variant in `part_002:172-195` is
the same computation): mono input is gain-multiplied and clamped per sample,
stereo input is averaged per frame before the gain, then clamped. -/
def applyGainBoostAndConvertToMono (channels : ℕ) (gain : ℚ) (input : List ℤ) : List ℤ :=
  if channels = 1 then input.map (fun s : ℤ => clampToInt16 ((s : ℚ) * gain))
  else downmixPairs gain input

/-- Input-volume pre-scaling pass of the Windows microphone capture loop
(`mic_capture_plugin.cpp:935-941`): applied only when
`input_volume_ > 0.0f && input_volume_ < 1.0f`; each interleaved converted
sample is scaled and truncated back to `int16_t`. -/
def micVolumePass (v : ℚ) (samples : List ℤ) : List ℤ :=
  if 0 < v ∧ v < 1 then samples.map (fun s : ℤ => ratTrunc ((s : ℚ) * v)) else samples

/-- Input-volume pre-scaling pass of the `part_002` system capture loop
(`part_002:533-541`): applied whenever `input_volume_ < 1.0f`. -/
def sysVolumePass (v : ℚ) (samples : List ℤ) : List ℤ :=
  if v < 1 then samples.map (fun s : ℤ => ratTrunc ((s : ℚ) * v)) else samples

/-! ### Level meter -/

/-- `MicCapturePlugin::CalculateDecibel` (`mic_capture_plugin.cpp:246-272`;
the system copy in `part_002:197-222` is identical): RMS over the mono
chunk, `dB = 20*log10(rms/32767)`, with `-120.0` for an empty chunk or a
non-positive RMS, and a final clamp to `[-120, 0]`. The `double`
accumulation is modelled exactly over `ℚ`, the `sqrt`/`log10` over `ℝ`. -/
noncomputable def calculateDecibel (samples : List ℤ) : ℝ :=
  if samples.length = 0 then -120
  else
    if Real.sqrt ((((samples.map fun s : ℤ => (s : ℚ) * s).sum / samples.length : ℚ) : ℝ)) ≤ 0 then
      -120
    else
      max (-120) (min 0 (20 * Real.logb 10
        (Real.sqrt ((((samples.map fun s : ℤ => (s : ℚ) * s).sum / samples.length : ℚ) : ℝ)) / 32767)))

/-- `calculateDecibelFromFloatBuffer` of the macOS microphone path
(`MicCapturePlugin.swift:1316-1365`), single-channel case: RMS over the
original `Float32` samples (full scale `1.0`), `dB = 20*log10(rms)`,
`-120.0` for an empty buffer or non-positive RMS, clamp to `[-120, 0]`. -/
noncomputable def calculateDecibelFromFloatBuffer (floats : List ℚ) : ℝ :=
  if floats.length = 0 then -120
  else
    if Real.sqrt ((((floats.map fun x => x * x).sum / floats.length : ℚ) : ℝ)) ≤ 0 then
      -120
    else
      max (-120) (min 0 (20 * Real.logb 10
        (Real.sqrt ((((floats.map fun x => x * x).sum / floats.length : ℚ) : ℝ)))))

/-! ### Per-chunk processing pipelines -/

/-- One ready chunk of the Windows microphone capture loop after format
conversion (`mic_capture_plugin.cpp:935-969`): the volume pre-scaling pass,
then `ApplyGainBoostAndConvertToMono` into the output buffer, then
`CalculateDecibel` over exactly that output buffer; the loop then emits the
output buffer as the audio event and the decibel value as the decibel
event. Returns (emitted samples, emitted decibel). -/
noncomputable def processChunkWin (channels : ℕ) (gain volume : ℚ) (converted : List ℤ) :
    List ℤ × ℝ :=
  (applyGainBoostAndConvertToMono channels gain (micVolumePass volume converted),
   calculateDecibel (applyGainBoostAndConvertToMono channels gain (micVolumePass volume converted)))

/-- `processAudioBuffer` of the macOS microphone path
(`MicCapturePlugin.swift:1146-1221`): the decibel is computed from the
ORIGINAL float buffer (`calculateDecibelFromFloatBuffer(buffer)`, line 1149)
before conversion, while the emitted audio bytes are
`extractPCMData(convertBuffer(buffer))` — the gain/downmix stage
(`MicCapturePlugin.swift:1280-1305`, the same arithmetic as
`applyGainBoostAndConvertToMono`) applied to the `AVAudioConverter` output.
The converter is an external OS API, so its int16 output is a parameter
(`converted`); for a mono float sample `x` the standard conversion yields
`trunc(x * 32767)`. Returns (emitted samples, emitted decibel). -/
noncomputable def macProcessAudioBuffer (floats : List ℚ) (converted : List ℤ)
    (channels : ℕ) (gain : ℚ) : List ℤ × ℝ :=
  (applyGainBoostAndConvertToMono channels gain converted,
   calculateDecibelFromFloatBuffer floats)

/-! ### Open-with-retry (`MicCapturePlugin::OpenWASAPIStreamWithRetry`,
`mic_capture_plugin.cpp:394-617`) -/

/-- `max_retries = is_bluetooth ? 5 : 3` (`mic_capture_plugin.cpp:398`). -/
def maxRetries (isFlaky : Bool) : ℕ := if isFlaky then 5 else 3

/-- `initial_wait = is_bluetooth ? 1.5 : 0.3` seconds, slept once before the
attempt loop (`mic_capture_plugin.cpp:399,406-408`), in milliseconds. -/
def initialWaitMs (isFlaky : Bool) : ℕ := if isFlaky then 1500 else 300

/-- `bluetooth_delays[] = {0.5, 1.0, 1.5, 2.0, 2.5}` and
`normal_delays[] = {0.3, 0.6, 1.0, 0.0, 0.0}` (`mic_capture_plugin.cpp:402-403`),
in milliseconds; attempt `i` (1-based) sleeps `retry_delays[i-1]` on failure. -/
def retryDelayMs : Bool → ℕ → ℕ
  | true, 0 => 500
  | true, 1 => 1000
  | true, 2 => 1500
  | true, 3 => 2000
  | true, 4 => 2500
  | false, 0 => 300
  | false, 1 => 600
  | false, 2 => 1000
  | _, _ => 0

/-- The retry loop body (`mic_capture_plugin.cpp:410-611`): each attempt runs
the full acquisition sequence (abstracted as `succeeds attempt`); on failure,
if `attempt < max_retries && retry_delays[attempt-1] > 0` it sleeps that
delay and retries, otherwise it returns failure. `remaining` counts the
attempts left (`max_retries - attempt + 1`). Returns
(last attempt number, milliseconds slept inside the loop, success). -/
def retryFrom (isFlaky : Bool) (succeeds : ℕ → Bool) : ℕ → ℕ → ℕ × ℕ × Bool
  | attempt, 0 => (attempt, 0, false)
  | attempt, 1 => if succeeds attempt then (attempt, 0, true) else (attempt, 0, false)
  | attempt, r + 2 =>
    if succeeds attempt then (attempt, 0, true)
    else if 0 < retryDelayMs isFlaky (attempt - 1) then
      let rest := retryFrom isFlaky succeeds (attempt + 1) (r + 1)
      (rest.1, retryDelayMs isFlaky (attempt - 1) + rest.2.1, rest.2.2)
    else (attempt, 0, false)

/-- `OpenWASAPIStreamWithRetry` with the per-attempt backend acquisition
abstracted as `succeeds`: initial wait, then the retry loop. Returns
(attempts made, total milliseconds waited, success). -/
def openWASAPIStreamWithRetry (isFlaky : Bool) (succeeds : ℕ → Bool) : ℕ × ℕ × Bool :=
  (( retryFrom isFlaky succeeds 1 (maxRetries isFlaky)).1,
   initialWaitMs isFlaky + (retryFrom isFlaky succeeds 1 (maxRetries isFlaky)).2.1,
   (retryFrom isFlaky succeeds 1 (maxRetries isFlaky)).2.2)

/-! ### Chunk assembler -/

/-- Inner copy loop of the Windows microphone capture thread
(`mic_capture_plugin.cpp:863-980`) at the byte level. The raw buffer holds
`capacity = cap1 + 1` bytes (`chunk_size_bytes`, strictly positive:
`4096 * nBlockAlign`); the loop copies
`copy_size = min(space_available, data_remaining)` bytes of the delivered
block, and whenever the write position reaches the capacity it emits the
buffer contents as one ready chunk and starts the buffer afresh (the
`raw_buffer_pos > chunk_size_bytes` carry branch at lines 972-978 is
unreachable here because the buffer is exactly one chunk long, so the
reset at line 977 applies). Returns (leftover buffer contents, emitted
chunks in order). -/
def micChunkCopyLoop (cap1 : ℕ) (buf data : List ℕ) : List ℕ × List (List ℕ) :=
  if data = [] then (buf.take cap1, [])
  else
    let grown := buf.take cap1 ++ data.take (min (cap1 + 1 - (buf.take cap1).length) data.length)
    if cap1 + 1 ≤ grown.length then
      let rest := micChunkCopyLoop cap1 []
        (data.drop (min (cap1 + 1 - (buf.take cap1).length) data.length))
      (rest.1, grown :: rest.2)
    else (grown, [])
termination_by data.length
decreasing_by
  simp only [List.length_drop]
  have h1 : 1 ≤ data.length := by
    cases data with
    | nil => simp_all
    | cons a l => simp
  have h2 : (buf.take cap1).length ≤ cap1 := by
    simp [List.length_take]
  omega

/-- A whole run of the microphone capture loop over a sequence of delivered
(non-silent) raw frame blocks, threading the chunk buffer and collecting
every emitted chunk in order. -/
def micFeedBlocks (cap1 : ℕ) (buf : List ℕ) : List (List ℕ) → List ℕ × List (List ℕ)
  | [] => (buf, [])
  | b :: bs =>
    ((micFeedBlocks cap1 (micChunkCopyLoop cap1 buf b).1 bs).1,
     (micChunkCopyLoop cap1 buf b).2 ++ (micFeedBlocks cap1 (micChunkCopyLoop cap1 buf b).1 bs).2)

/-- Buffer handling of the `part_002` system capture thread
(`part_002:522-576`): a delivered block is copied only if it fits wholly
(`raw_buffer_pos + data_size <= raw_buffer.size()`, line 526 — otherwise it
is skipped); when the position reaches the chunk size the chunk is emitted
and the position is reset to 0 (line 575). Returns
(new buffer contents, emitted chunks). -/
def sysAppendBlock (cap : ℕ) (buf data : List ℕ) : List ℕ × List (List ℕ) :=
  if buf.length + data.length ≤ cap then
    if cap ≤ (buf ++ data).length then ([], [buf ++ data]) else (buf ++ data, [])
  else if cap ≤ buf.length then ([], [buf]) else (buf, [])

/-- A run of the `part_002` system capture loop over a sequence of delivered
blocks. -/
def sysFeedBlocks (cap : ℕ) (buf : List ℕ) : List (List ℕ) → List ℕ × List (List ℕ)
  | [] => (buf, [])
  | b :: bs =>
    ((sysFeedBlocks cap (sysAppendBlock cap buf b).1 bs).1,
     (sysAppendBlock cap buf b).2 ++ (sysFeedBlocks cap (sysAppendBlock cap buf b).1 bs).2)

/-! ### Silence flag handling -/

/-- One delivered backend buffer in the Windows microphone capture loop
(`mic_capture_plugin.cpp:847-987`): data is appended and chunks are emitted
only when `!is_silent && data != nullptr && num_frames > 0` (line 858);
`ReleaseBuffer` is called unconditionally afterwards (line 984). Returns
(new buffer contents, emitted chunks, whether the block was released). -/
def micHandleBlock (cap1 : ℕ) (buf : List ℕ) (silent : Bool) (data : List ℕ) :
    List ℕ × List (List ℕ) × Bool :=
  if silent = false ∧ data ≠ [] then
    ((micChunkCopyLoop cap1 buf data).1, (micChunkCopyLoop cap1 buf data).2, true)
  else (buf, [], true)

/-- One delivered backend buffer in the `part_002` system capture loop
(`part_002:511-582`): on the silent flag `data` is nulled (line 518-520), so
nothing is appended or emitted, and `ReleaseBuffer` still runs (line 579). -/
def sysHandleBlock (cap : ℕ) (buf : List ℕ) (silent : Bool) (data : List ℕ) :
    List ℕ × List (List ℕ) × Bool :=
  if silent = false ∧ data ≠ [] then
    ((sysAppendBlock cap buf data).1, (sysAppendBlock cap buf data).2, true)
  else (buf, [], true)

/-! ### Device format selection at stream-open time -/

/-- The `WAVEFORMATEX` fields the code reads or writes. -/
structure DeviceFormat where
  formatTag : ℕ
  nChannels : ℕ
  nSamplesPerSec : ℕ
  wBitsPerSample : ℕ
  nBlockAlign : ℕ
  nAvgBytesPerSec : ℕ
  cbSize : ℕ
deriving DecidableEq

/-- Format handed to `IAudioClient::Initialize` by the current
`MicCapturePlugin::OpenWASAPIStreamWithRetry` (`mic_capture_plugin.cpp:505-512`)
and by the double-buffer system plugin (`audio_capture_plugin.h:476-485`):
the `GetMixFormat` result is stored and used unmodified; the requested
sample rate / channels / bit depth parameters are ignored here. -/
def micStreamInitFormat (requestedRate requestedChannels requestedBits : ℕ)
    (native : DeviceFormat) : DeviceFormat :=
  native

/-- Format handed to `IAudioClient::Initialize` by
`SystemAudioCapturePlugin::StartCapture` in `part_002:350-357` (and by the
older microphone variant, `mic_capture_plugin.cpp:1452-1459`): every field of
the `GetMixFormat` result is overwritten with the caller-requested values
(`WAVE_FORMAT_PCM = 1`, requested channels and rate, 16 bits). -/
def forceRequestedFormat (requestedRate requestedChannels : ℕ)
    (native : DeviceFormat) : DeviceFormat :=
  { formatTag := 1
    nChannels := requestedChannels
    nSamplesPerSec := requestedRate
    wBitsPerSample := 16
    nBlockAlign := requestedChannels * 16 / 8
    nAvgBytesPerSec := requestedRate * (requestedChannels * 16 / 8)
    cbSize := 0 }

/-! ### Chunk size policy -/

/-- Fixed microphone chunk size, `chunk_size_frames = 4096`
(`mic_capture_plugin.cpp:824`). -/
def micChunkSizeFrames : ℕ := 4096

/-- Config-time clamp `chunk_duration_ms_ = max(chunk_duration_ms_, 10)`
applied by both system `StartCapture` variants (`part_002:301`,
`audio_capture_plugin.h:416`). -/
def clampChunkDurationMs (d : ℕ) : ℕ := max d 10

/-- `effective_chunk_ms = max(20, min(chunk_duration_ms_, 50))` of the
double-buffer system capture thread (`audio_capture_plugin.h:635`). -/
def sysEffectiveChunkMs (d : ℕ) : ℕ := max 20 (min d 50)

/-- `chunk_frames = actual_sample_rate * effective_chunk_ms / 1000` of the
double-buffer system capture thread (`audio_capture_plugin.h:638`), where
`actual_sample_rate` is the device's native rate from the mix format. -/
def sysChunkFrames (nativeRate d : ℕ) : ℕ := nativeRate * sysEffectiveChunkMs d / 1000

/-- Chunk size of the `part_002` system capture thread (`part_002:489`):
`(sample_rate_ * chunk_duration_ms_ / 1000)` frames, from the configured
rate and the config-clamped duration, with no further clamp. -/
def oldSysChunkFrames (requestedRate d : ℕ) : ℕ :=
  requestedRate * clampChunkDurationMs d / 1000

/-! ### Stop / lifecycle state -/

/-- The capture-session state touched by `StopCapture`: the capturing flag,
which backend resources are currently held, and how many times each has been
released/freed so far. -/
structure PluginState where
  isCapturing : Bool
  audioClient : Bool
  captureClient : Bool
  mixFormat : Bool
  device : Bool
  comInit : Bool
  audioClientReleases : ℕ
  captureClientReleases : ℕ
  mixFormatFrees : ℕ
  deviceReleases : ℕ
  comUninits : ℕ
deriving DecidableEq

/-- Release a handle if held: one `Release()`/`CoTaskMemFree` call, then the
pointer is nulled. -/
def releaseOnce (present : Bool) (count : ℕ) : ℕ := if present then count + 1 else count

/-- `MicCapturePlugin::StopCapture` (`mic_capture_plugin.cpp:750-806`; the
system variants `part_002:428-480` and `audio_capture_plugin.h:564-616` are
identical in structure): if not capturing, return `false` leaving everything
untouched; otherwise clear the flag and release each held resource exactly
once, nulling its pointer, and return `true`. -/
def stopCapture (s : PluginState) : Bool × PluginState :=
  if s.isCapturing = false then (false, s)
  else
    (true,
      { isCapturing := false
        audioClient := false
        captureClient := false
        mixFormat := false
        device := false
        comInit := false
        audioClientReleases := releaseOnce s.audioClient s.audioClientReleases
        captureClientReleases := releaseOnce s.captureClient s.captureClientReleases
        mixFormatFrees := releaseOnce s.mixFormat s.mixFormatFrees
        deviceReleases := releaseOnce s.device s.deviceReleases
        comUninits := releaseOnce s.comInit s.comUninits })

/-- `isActive()` — the capturing flag. -/
def isActive (s : PluginState) : Bool := s.isCapturing

/-! ## Helper lemmas -/

theorem ratFloor_eq (q : ℚ) : q.floor = ⌊q⌋ := by
  rw [Rat.floor_def', Rat.floor_def]

theorem ratTrunc_eq (q : ℚ) : ratTrunc q = if 0 ≤ q then ⌊q⌋ else ⌈q⌉ := by
  unfold ratTrunc
  rw [ratFloor_eq, ratFloor_eq, Int.floor_neg, neg_neg]

theorem ratTrunc_intCast (n : ℤ) : ratTrunc (n : ℚ) = n := by
  rw [ratTrunc_eq]
  split
  · exact Int.floor_intCast n
  · exact Int.ceil_intCast n

theorem le_ratTrunc (n : ℤ) (q : ℚ) (h : (n : ℚ) ≤ q) : n ≤ ratTrunc q := by
  rw [ratTrunc_eq]
  split
  · have h2 := Int.floor_le_floor h
    rwa [Int.floor_intCast] at h2
  · have h2 := Int.ceil_le_ceil h
    rwa [Int.ceil_intCast] at h2

theorem ratTrunc_le (q : ℚ) (n : ℤ) (h : q ≤ (n : ℚ)) : ratTrunc q ≤ n := by
  rw [ratTrunc_eq]
  split
  · have h2 := Int.floor_le_floor h
    rwa [Int.floor_intCast] at h2
  · have h2 := Int.ceil_le_ceil h
    rwa [Int.ceil_intCast] at h2

theorem clampToInt16_bounds (q : ℚ) :
    -32768 ≤ clampToInt16 q ∧ clampToInt16 q ≤ 32767 := by
  unfold clampToInt16
  constructor
  · apply le_ratTrunc
    push_cast
    exact le_max_left _ _
  · apply ratTrunc_le
    push_cast
    exact max_le (by norm_num) (min_le_left _ _)

theorem clampToInt16_intCast (n : ℤ) (h1 : -32768 ≤ n) (h2 : n ≤ 32767) :
    clampToInt16 (n : ℚ) = n := by
  unfold clampToInt16
  rw [min_eq_right (by exact_mod_cast h2), max_eq_right (by exact_mod_cast h1),
    ratTrunc_intCast]

theorem clampToInt16_of_ge (q : ℚ) (h : 32767 ≤ q) : clampToInt16 q = 32767 := by
  unfold clampToInt16
  rw [min_eq_left h, max_eq_right (by norm_num)]
  rw [show ((32767 : ℚ)) = ((32767 : ℤ) : ℚ) by norm_num, ratTrunc_intCast]

theorem mem_downmixPairs_bounds (gain : ℚ) :
    ∀ (n : ℕ) (l : List ℤ), l.length ≤ n →
      ∀ out ∈ downmixPairs gain l, -32768 ≤ out ∧ out ≤ 32767 := by
  intro n
  induction n with
  | zero =>
    intro l hl out hout
    cases l with
    | nil => simp [downmixPairs] at hout
    | cons a t => simp at hl
  | succ n ih =>
    intro l hl out hout
    match l with
    | [] => simp [downmixPairs] at hout
    | [a] => simp [downmixPairs] at hout
    | a :: b :: rest =>
      rw [downmixPairs] at hout
      rcases List.mem_cons.mp hout with h | h
      · subst h
        exact clampToInt16_bounds _
      · exact ih rest (by simp at hl; omega) out h

theorem mem_applyGain_bounds (channels : ℕ) (gain : ℚ) (input : List ℤ) :
    ∀ out ∈ applyGainBoostAndConvertToMono channels gain input,
      -32768 ≤ out ∧ out ≤ 32767 := by
  intro out hout
  unfold applyGainBoostAndConvertToMono at hout
  split at hout
  · obtain ⟨s, _, rfl⟩ := List.mem_map.mp hout
    exact clampToInt16_bounds _
  · exact mem_downmixPairs_bounds gain input.length input le_rfl out hout

theorem flatten_length_of_forall (m : ℕ) :
    ∀ L : List (List ℕ), (∀ c ∈ L, c.length = m) → L.flatten.length = m * L.length := by
  intro L
  induction L with
  | nil => simp
  | cons c t ih =>
    intro h
    have hc : c.length = m := h c (List.mem_cons_self c t)
    have ht := ih fun x hx => h x (List.mem_cons_of_mem c hx)
    simp [List.flatten_cons, hc, ht, Nat.mul_succ, Nat.mul_add]
    omega

/-! ## Claims -/

/-- C2. Retry policy by flakiness classification
(`mic_capture_plugin.cpp:394-617`): for a flaky (Bluetooth) device every
run that returns failure has made exactly 5 attempts, and its cumulative
wait is the 1.5 s initial wait plus the backoff delays slept between the
failed attempts (0.5 s + 1.0 s + 1.5 s + 2.0 s); at most 5 attempts are ever
made. For a normal device: failure takes exactly 3 attempts with 0.3 s
initial wait plus 0.3 s + 0.6 s backoff, and at most 3 attempts are made. -/
theorem openWithRetry_policy (succeeds : ℕ → Bool) :
    ((openWASAPIStreamWithRetry true succeeds).2.2 = false →
      (openWASAPIStreamWithRetry true succeeds).1 = 5
      ∧ (openWASAPIStreamWithRetry true succeeds).2.1 = 1500 + (500 + 1000 + 1500 + 2000))
    ∧ (openWASAPIStreamWithRetry true succeeds).1 ≤ 5
    ∧ ((openWASAPIStreamWithRetry false succeeds).2.2 = false →
      (openWASAPIStreamWithRetry false succeeds).1 = 3
      ∧ (openWASAPIStreamWithRetry false succeeds).2.1 = 300 + (300 + 600))
    ∧ (openWASAPIStreamWithRetry false succeeds).1 ≤ 3 := by
  cases h1 : succeeds 1 <;> cases h2 : succeeds 2 <;> cases h3 : succeeds 3 <;>
    cases h4 : succeeds 4 <;> cases h5 : succeeds 5 <;>
      simp_all [openWASAPIStreamWithRetry, retryFrom, retryDelayMs, maxRetries,
        initialWaitMs]

/-- C2 witness: with every acquisition attempt failing, the flaky run makes
exactly 5 attempts and waits 6500 ms in total; the normal run makes 3
attempts and waits 1200 ms. -/
theorem openWithRetry_policy_witness :
    ((openWASAPIStreamWithRetry true (fun _ => false)).2.2 = false
      ∧ (openWASAPIStreamWithRetry false (fun _ => false)).2.2 = false)
    ∧ ((openWASAPIStreamWithRetry true (fun _ => false)).1 = 5
      ∧ (openWASAPIStreamWithRetry true (fun _ => false)).2.1
          = 1500 + (500 + 1000 + 1500 + 2000))
    ∧ ((openWASAPIStreamWithRetry false (fun _ => false)).1 = 3
      ∧ (openWASAPIStreamWithRetry false (fun _ => false)).2.1 = 300 + (300 + 600)) :=
  ⟨⟨by decide, by decide⟩,
   (openWithRetry_policy (fun _ => false)).1 (by decide),
   (openWithRetry_policy (fun _ => false)).2.2.1 (by decide)⟩

/-- C4 (amended). Chunk size policy: the microphone loop uses a fixed
4096-frame chunk; the double-buffer system loop (`audio_capture_plugin.h`)
clamps the configured duration to [20 ms, 50 ms] and sizes the chunk from
the device's native rate; the config-time clamp keeps the configured
duration at least 10 ms. (The `part_002` system loop has no [20,50] clamp —
see the counterexample.) -/
theorem chunk_size_policy (d nativeRate : ℕ) :
    micChunkSizeFrames = 4096
    ∧ 20 ≤ sysEffectiveChunkMs d ∧ sysEffectiveChunkMs d ≤ 50
    ∧ sysChunkFrames nativeRate d = nativeRate * sysEffectiveChunkMs d / 1000
    ∧ 10 ≤ clampChunkDurationMs d :=
  ⟨rfl, le_max_left _ _, max_le (by norm_num) (min_le_right _ _), rfl, le_max_right _ _⟩

/-- C4 counterexample: in the `part_002` system capture loop a configured
chunk duration of 100 ms survives the config clamp unchanged and yields a
4800-frame chunk at 48 kHz — 100 ms of audio, well above the claimed 50 ms
upper clamp. -/
theorem old_sys_chunk_duration_unclamped :
    clampChunkDurationMs 100 = 100
    ∧ oldSysChunkFrames 48000 100 = 4800
    ∧ ¬oldSysChunkFrames 48000 100 ≤ 48000 * 50 / 1000 := by
  refine ⟨rfl, rfl, ?_⟩
  decide

/-- C5 (amended). The current microphone `OpenWASAPIStreamWithRetry`
(`mic_capture_plugin.cpp:505-512`) and the double-buffer system plugin hand
the `GetMixFormat` result to `IAudioClient::Initialize` unmodified and keep
it as the session format: the caller-requested rate, channel count and bit
depth are ignored at this stage. (The `part_002` system plugin and the older
microphone variant overwrite the descriptor — see the counterexample.) -/
theorem mic_open_returns_native_format (requestedRate requestedChannels requestedBits : ℕ)
    (native : DeviceFormat) :
    micStreamInitFormat requestedRate requestedChannels requestedBits native = native := rfl

/-- C5 counterexample: `SystemAudioCapturePlugin::StartCapture`
(`part_002:350-357`) overwrites the native mix format (here a 48 kHz stereo
32-bit float descriptor) with the caller-requested 16 kHz mono 16-bit PCM
before initializing the stream, so the format handed to the hardware is not
the native one. -/
theorem forced_format_differs_from_native :
    forceRequestedFormat 16000 1
        { formatTag := 3, nChannels := 2, nSamplesPerSec := 48000, wBitsPerSample := 32,
          nBlockAlign := 8, nAvgBytesPerSec := 384000, cbSize := 22 }
      ≠ { formatTag := 3, nChannels := 2, nSamplesPerSec := 48000, wBitsPerSample := 32,
          nBlockAlign := 8, nAvgBytesPerSec := 384000, cbSize := 22 } := by
  decide

/-- C6. Gain clamp correctness (`mic_capture_plugin.cpp:219-244`): clamping
to the int16 range happens after the gain multiplication for every sample,
so for any gain in [0.1, 10.0] every output sample of the gain-and-downmix
stage lies in [-32768, 32767]; in particular a mono input sample of 32767
with gain 10.0 yields exactly 32767, never a wrapped negative value. -/
theorem gain_clamp_correct (gain : ℚ) (hg1 : 1 / 10 ≤ gain) (hg2 : gain ≤ 10)
    (channels : ℕ) (input : List ℤ) :
    (∀ out ∈ applyGainBoostAndConvertToMono channels gain input,
      -32768 ≤ out ∧ out ≤ 32767)
    ∧ applyGainBoostAndConvertToMono 1 10 [32767] = [32767] := by
  refine ⟨mem_applyGain_bounds channels gain input, ?_⟩
  have h : clampToInt16 ((32767 : ℚ) * 10) = 32767 := by
    rw [show ((32767 : ℚ) * 10) = 327670 by norm_num]
    exact clampToInt16_of_ge 327670 (by norm_num)
  simp [applyGainBoostAndConvertToMono, h]

/-- C6 witness: at gain 10 (allowed by the [0.1, 10.0] clamp) a full-scale
mono sample stays at 32767 and every output is in range. -/
theorem gain_clamp_correct_witness :
    ((1 : ℚ) / 10 ≤ 10 ∧ (10 : ℚ) ≤ 10)
    ∧ (∀ out ∈ applyGainBoostAndConvertToMono 1 10 [32767],
        -32768 ≤ out ∧ out ≤ 32767)
    ∧ applyGainBoostAndConvertToMono 1 10 [32767] = [32767] :=
  ⟨⟨by norm_num, by norm_num⟩,
   gain_clamp_correct 10 (by norm_num) (by norm_num) 1 [32767]⟩

/-- C8 (amended). The inputVolume pre-scaling pass runs over the interleaved
samples before downmix: in the microphone loop it is applied exactly when
`0 < inputVolume < 1` — so an exact 0.0 also passes samples through
unchanged there — while the `part_002` system loop applies it exactly when
`inputVolume < 1`; an exact 1.0 is a no-op in both. -/
theorem volume_pass_policy :
    (∀ (v : ℚ) (samples : List ℤ), 0 < v → v < 1 →
      micVolumePass v samples = samples.map fun s : ℤ => ratTrunc ((s : ℚ) * v))
    ∧ (∀ samples : List ℤ, micVolumePass 1 samples = samples)
    ∧ (∀ samples : List ℤ, micVolumePass 0 samples = samples)
    ∧ (∀ (v : ℚ) (samples : List ℤ), v < 1 →
      sysVolumePass v samples = samples.map fun s : ℤ => ratTrunc ((s : ℚ) * v))
    ∧ (∀ samples : List ℤ, sysVolumePass 1 samples = samples) := by
  refine ⟨?_, ?_, ?_, ?_, ?_⟩
  · intro v samples hv0 hv1
    rw [micVolumePass, if_pos ⟨hv0, hv1⟩]
  · intro samples
    rw [micVolumePass, if_neg (by norm_num)]
  · intro samples
    rw [micVolumePass, if_neg (by norm_num)]
  · intro v samples hv1
    rw [sysVolumePass, if_pos hv1]
  · intro samples
    rw [sysVolumePass, if_neg (by norm_num)]

/-- C8 witness: at inputVolume 1/2 the microphone pass scales each sample. -/
theorem volume_pass_policy_witness :
    ((0 : ℚ) < 1 / 2 ∧ (1 / 2 : ℚ) < 1)
    ∧ micVolumePass (1 / 2) [(100 : ℤ)]
        = [(100 : ℤ)].map fun s : ℤ => ratTrunc ((s : ℚ) * (1 / 2)) :=
  ⟨⟨by norm_num, by norm_num⟩,
   volume_pass_policy.1 (1 / 2) [(100 : ℤ)] (by norm_num) (by norm_num)⟩

/-- C8 counterexample: at inputVolume 0.0 the microphone loop's guard
`input_volume_ > 0.0f` (`mic_capture_plugin.cpp:936`) skips the pass, so a
sample of 1000 is NOT multiplied by 0 — it passes through as 1000, while the
claim requires every volume in [0, 1) to scale each sample. -/
theorem micVolumePass_zero_not_scaling :
    micVolumePass 0 [(1000 : ℤ)] ≠ [(1000 : ℤ)].map fun s : ℤ => ratTrunc ((s : ℚ) * 0) := by
  have h1 : micVolumePass 0 [(1000 : ℤ)] = [(1000 : ℤ)] := by
    rw [micVolumePass, if_neg (by norm_num)]
  have h2 : [(1000 : ℤ)].map (fun s : ℤ => ratTrunc ((s : ℚ) * 0)) = [(0 : ℤ)] := by
    simp only [List.map_cons, List.map_nil, mul_zero]
    rw [show (0 : ℚ) = ((0 : ℤ) : ℚ) by norm_num, ratTrunc_intCast]
  rw [h1, h2]
  decide

/-- C9. Idempotent stop (`mic_capture_plugin.cpp:750-806`): when not
capturing, `StopCapture` returns false and leaves the whole state (flags,
handles, release counters) untouched; hence a second consecutive stop
returns false and changes nothing, `isActive` is false after any stop, and
across a stop each backend resource is released at most once. -/
theorem stopCapture_idempotent (s : PluginState) :
    (s.isCapturing = false → stopCapture s = (false, s))
    ∧ (stopCapture (stopCapture s).2).1 = false
    ∧ (stopCapture (stopCapture s).2).2 = (stopCapture s).2
    ∧ isActive (stopCapture s).2 = false
    ∧ (stopCapture (stopCapture s).2).2.audioClientReleases ≤ s.audioClientReleases + 1
    ∧ (stopCapture (stopCapture s).2).2.captureClientReleases ≤ s.captureClientReleases + 1
    ∧ (stopCapture (stopCapture s).2).2.mixFormatFrees ≤ s.mixFormatFrees + 1
    ∧ (stopCapture (stopCapture s).2).2.deviceReleases ≤ s.deviceReleases + 1
    ∧ (stopCapture (stopCapture s).2).2.comUninits ≤ s.comUninits + 1 := by
  by_cases hc : s.isCapturing = false
  · simp [stopCapture, hc, isActive]
  · have hc' : s.isCapturing = true := by revert hc; cases s.isCapturing <;> simp
    simp [stopCapture, hc', isActive, releaseOnce]
    repeat' apply And.intro
    all_goals first
      | rfl
      | (split <;> omega)

/-- C9 witness: stopping an idle session returns false and is a no-op. -/
theorem stopCapture_idempotent_witness :
    (PluginState.mk false false false false false false 0 0 0 0 0).isCapturing = false
    ∧ stopCapture (PluginState.mk false false false false false false 0 0 0 0 0)
        = (false, PluginState.mk false false false false false false 0 0 0 0 0) :=
  ⟨rfl, (stopCapture_idempotent (PluginState.mk false false false false false false 0 0 0 0 0)).1 rfl⟩

/-- C10. A backend buffer delivered with the silence flag set contributes
nothing: in both the microphone loop (`mic_capture_plugin.cpp:854-858`) and
the `part_002` system loop (`part_002:518-529`) no bytes are appended, no
chunk (hence no audio or decibel event) is produced and the chunk buffer is
unchanged, yet the buffer is still released back to the backend
(`mic_capture_plugin.cpp:983-987`, `part_002:579`). -/
theorem silent_block_no_effect (cap1 cap : ℕ) (buf bufS data dataS : List ℕ) :
    micHandleBlock cap1 buf true data = (buf, [], true)
    ∧ sysHandleBlock cap bufS true dataS = (bufS, [], true) := by
  constructor <;> simp [micHandleBlock, sysHandleBlock]

/-- C7. Decibel degenerate cases and range
(`mic_capture_plugin.cpp:246-272`, `part_002:197-222`): empty input yields
exactly -120.0; an all-zero chunk of any length ≥ 1 yields exactly -120.0;
any chunk whose RMS is non-positive yields exactly -120.0; and the result
always lies within [-120.0, 0.0]. -/
theorem calculateDecibel_degenerate_and_range :
    calculateDecibel [] = -120
    ∧ (∀ samples : List ℤ, samples ≠ [] → (∀ s ∈ samples, s = 0) →
        calculateDecibel samples = -120)
    ∧ (∀ samples : List ℤ, samples.length ≠ 0 →
        Real.sqrt ((((samples.map fun s : ℤ => (s : ℚ) * s).sum / samples.length : ℚ) : ℝ)) ≤ 0 →
        calculateDecibel samples = -120)
    ∧ (∀ samples : List ℤ, -120 ≤ calculateDecibel samples ∧ calculateDecibel samples ≤ 0) := by
  refine ⟨by simp [calculateDecibel], ?_, ?_, ?_⟩
  · intro samples hne hzero
    have hlen : samples.length ≠ 0 := by
      intro h
      exact hne (List.length_eq_zero.mp h)
    have hsum : (samples.map fun s : ℤ => (s : ℚ) * s).sum = 0 := by
      apply List.sum_eq_zero
      intro x hx
      obtain ⟨s, hs, rfl⟩ := List.mem_map.mp hx
      rw [hzero s hs]
      norm_num
    unfold calculateDecibel
    rw [if_neg hlen, hsum, zero_div]
    rw [show (((0 : ℚ)) : ℝ) = (0 : ℝ) by norm_num, Real.sqrt_zero, if_pos le_rfl]
  · intro samples h1 h2
    unfold calculateDecibel
    rw [if_neg h1, if_pos h2]
  · intro samples
    unfold calculateDecibel
    split
    · norm_num
    · split
      · norm_num
      · exact ⟨le_max_left _ _, max_le (by norm_num) (min_le_left _ _)⟩

/-- C7 witness: the all-zero chunk `[0, 0, 0]` (length 3 ≥ 1) produces
exactly -120.0. -/
theorem calculateDecibel_degenerate_and_range_witness :
    (([(0 : ℤ), 0, 0] ≠ ([] : List ℤ)) ∧ ∀ s ∈ [(0 : ℤ), 0, 0], s = 0)
    ∧ calculateDecibel [(0 : ℤ), 0, 0] = -120 :=
  ⟨⟨by simp, by simp⟩,
   calculateDecibel_degenerate_and_range.2.1 [(0 : ℤ), 0, 0] (by simp) (by simp)⟩

/-- C3 (amended). In both Windows capture loops the decibel event value is
`CalculateDecibel` applied to exactly the post-downmix samples emitted as
the chunk's audio data (`mic_capture_plugin.cpp:947-969`,
`audio_capture_plugin.h:751-768`, `part_002:551-572` all compute the
decibel from the same `output_buffer` range they then emit); the macOS
microphone path does not — see the counterexample. -/
theorem windows_decibel_matches_emitted (channels : ℕ) (gain volume : ℚ)
    (converted : List ℤ) :
    (processChunkWin channels gain volume converted).2
      = calculateDecibel (processChunkWin channels gain volume converted).1 := rfl

/-- C3 counterexample, macOS microphone path
(`MicCapturePlugin.swift:1146-1149`): the emitted decibel is computed from
the pre-conversion float buffer, not from the emitted int16 samples. For a
mono buffer holding the single float sample 0.1 (whose standard int16
conversion is `trunc(0.1 * 32767) = 3276`) at gain 1.0, the path emits
decibel `20*log10(0.1) = -20` exactly, while `CalculateDecibel` over the
emitted samples `[3276]` is `20*log10(3276/32767) < -20` — the two
diverge. -/
theorem macos_mic_decibel_diverges :
    (macProcessAudioBuffer [1 / 10] [3276] 1 1).2
      ≠ calculateDecibel (macProcessAudioBuffer [1 / 10] [3276] 1 1).1 := by
  have hemit : (macProcessAudioBuffer [1 / 10] [3276] 1 1).1 = [(3276 : ℤ)] := by
    show applyGainBoostAndConvertToMono 1 1 [3276] = [(3276 : ℤ)]
    unfold applyGainBoostAndConvertToMono
    rw [if_pos rfl]
    simp only [List.map_cons, List.map_nil, mul_one]
    rw [clampToInt16_intCast 3276 (by norm_num) (by norm_num)]
  have hfloat : calculateDecibelFromFloatBuffer [1 / 10] = -20 := by
    unfold calculateDecibelFromFloatBuffer
    rw [if_neg (by simp)]
    have hms : ((((([(1 / 10 : ℚ)].map fun x => x * x).sum / ([(1 / 10 : ℚ)].length) : ℚ)) : ℝ))
        = ((1 : ℝ) / 10) ^ 2 := by
      simp only [List.map_cons, List.map_nil, List.sum_cons, List.sum_nil, List.length_cons,
        List.length_nil]
      push_cast
      norm_num
    rw [hms, Real.sqrt_sq (by norm_num)]
    rw [if_neg (by norm_num)]
    have hlog : Real.logb 10 ((1 : ℝ) / 10) = -1 := by
      rw [show ((1 : ℝ) / 10) = (10 : ℝ)⁻¹ by norm_num, Real.logb_inv,
        Real.logb_self_eq_one (by norm_num)]
    rw [hlog, show (20 * (-1 : ℝ)) = -20 by norm_num,
      min_eq_right (by norm_num : (-20 : ℝ) ≤ 0),
      max_eq_right (by norm_num : (-120 : ℝ) ≤ -20)]
  have hdb : calculateDecibel [(3276 : ℤ)] < -20 := by
    unfold calculateDecibel
    rw [if_neg (by simp)]
    have hms : ((((([(3276 : ℤ)].map fun s : ℤ => (s : ℚ) * s).sum / ([(3276 : ℤ)].length) : ℚ)) : ℝ))
        = (3276 : ℝ) ^ 2 := by
      simp only [List.map_cons, List.map_nil, List.sum_cons, List.sum_nil, List.length_cons,
        List.length_nil]
      push_cast
      norm_num
    rw [hms, Real.sqrt_sq (by norm_num)]
    rw [if_neg (by norm_num)]
    have h0 : (0 : ℝ) < 3276 / 32767 := by norm_num
    have h1 : (3276 : ℝ) / 32767 < 1 / 10 := by norm_num
    have hlog : Real.logb 10 ((3276 : ℝ) / 32767) < -1 := by
      have h2 := Real.logb_lt_logb (by norm_num : (1 : ℝ) < 10) h0 h1
      rwa [show ((1 : ℝ) / 10) = (10 : ℝ)⁻¹ by norm_num, Real.logb_inv,
        Real.logb_self_eq_one (by norm_num)] at h2
    rw [min_eq_right (by nlinarith : (20 * Real.logb 10 ((3276 : ℝ) / 32767)) ≤ 0)]
    exact max_lt (by norm_num) (by nlinarith)
  have hmac : (macProcessAudioBuffer [1 / 10] [3276] 1 1).2
      = calculateDecibelFromFloatBuffer [1 / 10] := rfl
  rw [hmac, hfloat, hemit]
  exact ne_of_gt hdb

/-- Invariant of the microphone inner copy loop: the emitted chunks followed
by the leftover buffer reproduce the (capacity-cropped) old buffer followed
by the delivered block, every emitted chunk is exactly one capacity long,
and the leftover is strictly below capacity. -/
theorem micChunkCopyLoop_spec (cap1 : ℕ) :
    ∀ (n : ℕ) (data buf : List ℕ), data.length ≤ n →
      (micChunkCopyLoop cap1 buf data).2.flatten ++ (micChunkCopyLoop cap1 buf data).1
          = buf.take cap1 ++ data
      ∧ (∀ c ∈ (micChunkCopyLoop cap1 buf data).2, c.length = cap1 + 1)
      ∧ (micChunkCopyLoop cap1 buf data).1.length ≤ cap1 := by
  intro n
  induction n with
  | zero =>
    intro data buf hlen
    have hd : data = [] := List.length_eq_zero.mp (Nat.le_zero.mp hlen)
    subst hd
    rw [micChunkCopyLoop]
    simp [List.length_take]
  | succ n ih =>
    intro data buf hlen
    by_cases hd : data = []
    · subst hd
      rw [micChunkCopyLoop]
      simp [List.length_take]
    · have hd1 : 1 ≤ data.length := by
        cases data with
        | nil => simp_all
        | cons a t => simp
      have htake : (buf.take cap1).length ≤ cap1 := by
        simp [List.length_take]
      have hc1 : 1 ≤ min (cap1 + 1 - (buf.take cap1).length) data.length := by
        omega
      rw [micChunkCopyLoop, if_neg hd]
      by_cases hfull : cap1 + 1 ≤
          (buf.take cap1 ++ data.take (min (cap1 + 1 - (buf.take cap1).length) data.length)).length
      · rw [if_pos hfull]
        have hdrop :
            (data.drop (min (cap1 + 1 - (buf.take cap1).length) data.length)).length ≤ n := by
          simp only [List.length_drop]
          omega
        obtain ⟨ih1, ih2, ih3⟩ :=
          ih (data.drop (min (cap1 + 1 - (buf.take cap1).length) data.length)) [] hdrop
        rw [List.take_nil, List.nil_append] at ih1
        refine ⟨?_, ?_, ih3⟩
        · calc
            ((buf.take cap1 ++ data.take (min (cap1 + 1 - (buf.take cap1).length) data.length)) ::
                  (micChunkCopyLoop cap1 []
                    (data.drop (min (cap1 + 1 - (buf.take cap1).length) data.length))).2).flatten
                ++ (micChunkCopyLoop cap1 []
                    (data.drop (min (cap1 + 1 - (buf.take cap1).length) data.length))).1
              = (buf.take cap1 ++ data.take (min (cap1 + 1 - (buf.take cap1).length) data.length))
                ++ ((micChunkCopyLoop cap1 []
                      (data.drop (min (cap1 + 1 - (buf.take cap1).length) data.length))).2.flatten
                  ++ (micChunkCopyLoop cap1 []
                      (data.drop (min (cap1 + 1 - (buf.take cap1).length) data.length))).1) := by
                simp [List.flatten_cons, List.append_assoc]
            _ = (buf.take cap1 ++ data.take (min (cap1 + 1 - (buf.take cap1).length) data.length))
                ++ data.drop (min (cap1 + 1 - (buf.take cap1).length) data.length) := by
                rw [ih1]
            _ = buf.take cap1 ++ data := by
                rw [List.append_assoc, List.take_append_drop]
        · intro ch hch
          rcases List.mem_cons.mp hch with h | h
          · subst h
            simp only [List.length_append, List.length_take] at hfull ⊢
            omega
          · exact ih2 ch h
      · rw [if_neg hfull]
        have hcr : min (cap1 + 1 - (buf.take cap1).length) data.length = data.length := by
          simp only [List.length_append, List.length_take] at hfull
          simp only [List.length_take]
          omega
        refine ⟨?_, by simp, ?_⟩
        · rw [hcr, List.take_length]
          simp
        · simp only [List.length_append, List.length_take] at hfull ⊢
          omega

/-- Invariant of a whole microphone capture-loop run: the emitted chunks
followed by the leftover buffer reproduce the entire delivered byte stream,
every chunk is exactly one capacity long, and the leftover stays below
capacity — leftover bytes are carried forward, never discarded. -/
theorem micFeedBlocks_spec (cap1 : ℕ) :
    ∀ (blocks : List (List ℕ)) (buf : List ℕ), buf.length ≤ cap1 →
      (micFeedBlocks cap1 buf blocks).2.flatten ++ (micFeedBlocks cap1 buf blocks).1
          = buf ++ blocks.flatten
      ∧ (∀ c ∈ (micFeedBlocks cap1 buf blocks).2, c.length = cap1 + 1)
      ∧ (micFeedBlocks cap1 buf blocks).1.length ≤ cap1 := by
  intro blocks
  induction blocks with
  | nil =>
    intro buf hb
    refine ⟨by simp [micFeedBlocks], by simp [micFeedBlocks], ?_⟩
    simpa [micFeedBlocks] using hb
  | cons b bs ih =>
    intro buf hb
    obtain ⟨l1, l2, l3⟩ := micChunkCopyLoop_spec cap1 b.length b buf le_rfl
    rw [List.take_of_length_le hb] at l1
    obtain ⟨f1, f2, f3⟩ := ih (micChunkCopyLoop cap1 buf b).1 l3
    rw [micFeedBlocks]
    refine ⟨?_, ?_, f3⟩
    · calc
        ((micChunkCopyLoop cap1 buf b).2
              ++ (micFeedBlocks cap1 (micChunkCopyLoop cap1 buf b).1 bs).2).flatten
            ++ (micFeedBlocks cap1 (micChunkCopyLoop cap1 buf b).1 bs).1
          = (micChunkCopyLoop cap1 buf b).2.flatten
            ++ ((micFeedBlocks cap1 (micChunkCopyLoop cap1 buf b).1 bs).2.flatten
              ++ (micFeedBlocks cap1 (micChunkCopyLoop cap1 buf b).1 bs).1) := by
            simp [List.flatten_append, List.append_assoc]
        _ = (micChunkCopyLoop cap1 buf b).2.flatten
            ++ ((micChunkCopyLoop cap1 buf b).1 ++ bs.flatten) := by rw [f1]
        _ = ((micChunkCopyLoop cap1 buf b).2.flatten ++ (micChunkCopyLoop cap1 buf b).1)
            ++ bs.flatten := by rw [List.append_assoc]
        _ = (buf ++ b) ++ bs.flatten := by rw [l1]
        _ = buf ++ (b :: bs).flatten := by simp [List.flatten_cons, List.append_assoc]
    · intro ch hch
      rcases List.mem_append.mp hch with h | h
      · exact l2 ch h
      · exact f2 ch h

/-- C1 (amended). No data loss across chunk boundaries in the microphone
capture loop (`mic_capture_plugin.cpp:863-980`): for every sequence of
delivered raw frame blocks, concatenating the emitted chunks and the
leftover buffer reproduces the input byte stream exactly (leftover bytes
are carried forward, never discarded), every emitted chunk is exactly one
chunk capacity long, and when the total length is an exact multiple
`k * capacity` the loop emits exactly `k` chunks whose concatenation is
the whole input, with an empty leftover. (The `part_002` system loop drops
blocks that do not fit — see the counterexample.) -/
theorem mic_assembler_no_data_loss (cap1 k : ℕ) (blocks : List (List ℕ))
    (htot : blocks.flatten.length = k * (cap1 + 1)) :
    (micFeedBlocks cap1 [] blocks).2.flatten ++ (micFeedBlocks cap1 [] blocks).1
        = blocks.flatten
    ∧ (∀ c ∈ (micFeedBlocks cap1 [] blocks).2, c.length = cap1 + 1)
    ∧ (micFeedBlocks cap1 [] blocks).2.length = k
    ∧ (micFeedBlocks cap1 [] blocks).1 = []
    ∧ (micFeedBlocks cap1 [] blocks).2.flatten = blocks.flatten := by
  obtain ⟨h1, h2, h3⟩ := micFeedBlocks_spec cap1 blocks [] (by simp)
  rw [List.nil_append] at h1
  have hflat : (micFeedBlocks cap1 [] blocks).2.flatten.length
      = (cap1 + 1) * (micFeedBlocks cap1 [] blocks).2.length :=
    flatten_length_of_forall _ _ h2
  have hlen : (cap1 + 1) * (micFeedBlocks cap1 [] blocks).2.length
      + (micFeedBlocks cap1 [] blocks).1.length = k * (cap1 + 1) := by
    have h4 := congrArg List.length h1
    rw [List.length_append, hflat, htot] at h4
    exact h4
  have hck : (micFeedBlocks cap1 [] blocks).2.length ≤ k := by
    by_contra hlt
    push_neg at hlt
    have h4 : (cap1 + 1) * (k + 1) ≤ (cap1 + 1) * (micFeedBlocks cap1 [] blocks).2.length :=
      Nat.mul_le_mul_left _ hlt
    rw [Nat.mul_succ] at h4
    have h5 : k * (cap1 + 1) = (cap1 + 1) * k := Nat.mul_comm _ _
    omega
  obtain ⟨d, hd⟩ := Nat.le.dest hck
  have hsplit : k * (cap1 + 1)
      = (cap1 + 1) * (micFeedBlocks cap1 [] blocks).2.length + d * (cap1 + 1) := by
    calc k * (cap1 + 1)
        = ((micFeedBlocks cap1 [] blocks).2.length + d) * (cap1 + 1) := by rw [hd]
      _ = (micFeedBlocks cap1 [] blocks).2.length * (cap1 + 1) + d * (cap1 + 1) :=
          Nat.add_mul _ _ _
      _ = (cap1 + 1) * (micFeedBlocks cap1 [] blocks).2.length + d * (cap1 + 1) := by
          rw [Nat.mul_comm (micFeedBlocks cap1 [] blocks).2.length (cap1 + 1)]
  have hrem : (micFeedBlocks cap1 [] blocks).1.length = d * (cap1 + 1) := by omega
  have hd0 : d = 0 := by
    by_contra hnz
    have hp : 1 ≤ d := Nat.one_le_iff_ne_zero.mpr hnz
    have h7 : 1 * (cap1 + 1) ≤ d * (cap1 + 1) := Nat.mul_le_mul_right _ hp
    rw [Nat.one_mul] at h7
    omega
  rw [hd0, Nat.zero_mul] at hrem
  have hempty : (micFeedBlocks cap1 [] blocks).1 = [] := List.length_eq_zero.mp hrem
  refine ⟨h1, h2, by omega, hempty, ?_⟩
  rw [hempty, List.append_nil] at h1
  exact h1

/-- C1 witness: with chunk capacity 4 and delivered blocks of sizes 3, 3, 2
(total 8 = 2 × 4), the microphone loop emits exactly 2 chunks whose
concatenation is the original stream, with nothing left over. -/
theorem mic_assembler_no_data_loss_witness :
    ([[1, 2, 3], [4, 5, 6], [7, 8]] : List (List ℕ)).flatten.length = 2 * (3 + 1)
    ∧ ((micFeedBlocks 3 [] [[1, 2, 3], [4, 5, 6], [7, 8]]).2.flatten
          ++ (micFeedBlocks 3 [] [[1, 2, 3], [4, 5, 6], [7, 8]]).1
        = ([[1, 2, 3], [4, 5, 6], [7, 8]] : List (List ℕ)).flatten
      ∧ (∀ c ∈ (micFeedBlocks 3 [] [[1, 2, 3], [4, 5, 6], [7, 8]]).2, c.length = 3 + 1)
      ∧ (micFeedBlocks 3 [] [[1, 2, 3], [4, 5, 6], [7, 8]]).2.length = 2
      ∧ (micFeedBlocks 3 [] [[1, 2, 3], [4, 5, 6], [7, 8]]).1 = []
      ∧ (micFeedBlocks 3 [] [[1, 2, 3], [4, 5, 6], [7, 8]]).2.flatten
          = ([[1, 2, 3], [4, 5, 6], [7, 8]] : List (List ℕ)).flatten) :=
  ⟨by decide, mic_assembler_no_data_loss 3 2 [[1, 2, 3], [4, 5, 6], [7, 8]] (by decide)⟩

/-- C1 counterexample: the `part_002` system capture loop
(`part_002:526-529`) skips any delivered block that does not fit wholly into
the remaining buffer space. With chunk capacity 4 and blocks of sizes 3, 3, 2
(total 8, an exact multiple of the capacity) it emits 0 chunks instead of
the 8 / 4 = 2 the claim requires, losing the skipped bytes entirely. -/
theorem sys_assembler_drops_data :
    ([[1, 2, 3], [4, 5, 6], [7, 8]] : List (List ℕ)).flatten.length = 2 * 4
    ∧ (sysFeedBlocks 4 [] [[1, 2, 3], [4, 5, 6], [7, 8]]).2.length = 0
    ∧ ¬(sysFeedBlocks 4 [] [[1, 2, 3], [4, 5, 6], [7, 8]]).2.length = 2 := by
  refine ⟨by decide, by decide, by decide⟩

end DesktopAudioCapture
